import Mathlib

/-!
Verification of the async TUI program (src/code/async_tui/main.c) against its
natural-language specification.  The C program is shallowly embedded below:
bytes are `Nat` (NUL = 0, tab = 9, newline = 10, space = 32), buffers are
`List Nat`, the fixed-size response array is a `List curl_response`, and the
two threads' loop bodies are explicit state-passing functions producing
ordered action traces.
-/

/-! ## Data model: response slots (struct curl_response, lines 40-43) -/

/-- Model of `struct curl_response`: `response` is the heap buffer (including
the trailing NUL byte written by `write_cb`), `none` when the pointer is NULL
(never allocated, i.e. a failed/empty transfer); `size` is the byte count
excluding the NUL terminator. -/
structure curl_response where
  response : Option (List Nat)
  size : Nat
deriving DecidableEq

/-- Model of `write_cb` (lines 80-93): `realsize = size * nmemb`; the buffer is
reallocated to `size + realsize + 1` bytes keeping the first `size` payload
bytes, `realsize` bytes of `data` are copied at offset `size`, `size` is
increased by `realsize`, and a NUL byte is written at the new `size`. -/
def write_cb (sz nmemb : Nat) (data : List Nat) (mem : curl_response) : curl_response :=
  let realsize := sz * nmemb
  let old := (mem.response.getD []).take mem.size
  ⟨some (old ++ data.take realsize ++ [0]), mem.size + realsize⟩

/-- The payload of a slot: the first `size` bytes of its buffer. -/
def payload (m : curl_response) : List Nat :=
  (m.response.getD []).take m.size

/-- Well-formedness of a slot as maintained by `write_cb`: either never
allocated (NULL pointer, size 0) or a buffer of length `size + 1` whose last
byte is NUL. -/
def resp_inv (m : curl_response) : Bool :=
  match m.response with
  | none => m.size == 0
  | some l => l.length == m.size + 1 && l.getD m.size 1 == 0

/-! ## Renderer (redraw, lines 314-364) -/

/-- The character substitution in the putchar loop (line 354):
`*begin == '\t' ? ' ' : *begin`. -/
def tab_to_space (b : Nat) : Nat := if b = 9 then 32 else b

/-- Scan for the first newline byte at or after index `j`, stopping at the
first NUL byte (as `strchr(begin, '\n')` does on a NUL-terminated buffer);
`j` is the absolute index of the head of the scanned list. -/
def find_nl : List Nat → Nat → Option Nat
  | [], _ => none
  | b :: rest, j => if b = 0 then none else if b = 10 then some j else find_nl rest (j + 1)

/-- Model of `strchr(&resp->response[start], '\n')` (line 345) as an absolute
index into the buffer. -/
def strchr_nl (buf : List Nat) (start : Nat) : Option Nat :=
  find_nl (buf.drop start) start

/-- The index one-past-which the putchar loop stops: the newline position if
one was found, otherwise `size` (lines 345-347:
`newline = newline ? newline : &resp->response[resp->size]`). -/
def line_stop (buf : List Nat) (sz start : Nat) : Nat :=
  (strchr_nl buf start).getD sz

/-- Model of the putchar loop (lines 352-355): emit bytes from index `pos`
until the cursor reaches `stop + 1` or `fuel` (the remaining column budget)
runs out, substituting tab by space. -/
def put_loop (buf : List Nat) (stop : Nat) : Nat → Nat → List Nat
  | _, 0 => []
  | pos, fuel + 1 =>
    if pos = stop + 1 then []
    else tab_to_space (buf.getD pos 0) :: put_loop buf stop (pos + 1) fuel

/-- The bytes emitted for the logical line beginning at index `start` of a
buffer of stored size `sz`, with a column budget of `cols`. -/
def render_line (buf : List Nat) (sz start cols : Nat) : List Nat :=
  put_loop buf (line_stop buf sz start) start cols

/-- The logical line start positions of a buffer, scanned from index `idx - 1`
downward as the inner loop of `redraw` does (lines 332-335): position `start`
is a line start when `start = 0` or the previous byte is a newline. -/
def line_starts (buf : List Nat) : Nat → List Nat
  | 0 => []
  | idx + 1 =>
    if idx = 0 ∨ buf.getD (idx - 1) 0 = 10 then idx :: line_starts buf idx
    else line_starts buf idx

/-- The inner loop of `redraw` over one response (lines 332-357): walk
candidate indices downward; at each line start, break out of this response
once no screen rows remain (`y <= 0`), otherwise post-decrement the skip
countdown and either skip the line (old countdown positive) or emit it at row
`y` and move the cursor row up.  Returns the emissions (row, bytes) together
with the final `y` and skip countdown. -/
def render_inner (buf : List Nat) (sz cols : Nat) :
    Nat → Int → Int → List (Int × List Nat) × Int × Int
  | 0, y, n => ([], y, n)
  | idx + 1, y, n =>
    if idx = 0 ∨ buf.getD (idx - 1) 0 = 10 then
      if y ≤ 0 then ([], y, n)
      else if 0 < n then render_inner buf sz cols idx y (n - 1)
      else
        let r := render_inner buf sz cols idx (y - 1) (n - 1)
        ((y, render_line buf sz idx cols) :: r.1, r.2)
    else render_inner buf sz cols idx y n

/-- The outer loop of `redraw` (lines 324-358): walk the given responses in
order (the caller passes newest first), skipping slots whose payload pointer
is NULL (failed requests, lines 327-330), threading the row cursor and skip
countdown through. -/
def render_log (cols : Nat) : List curl_response → Int → Int → List (Int × List Nat) × Int × Int
  | [], y, n => ([], y, n)
  | r :: rest, y, n =>
    match r.response with
    | none => render_log cols rest y n
    | some buf =>
      let a := render_inner buf r.size cols r.size y n
      let b := render_log cols rest a.2.1 a.2.2
      (a.1 ++ b.1, b.2)

/-- The NUL-terminated string stored in a C byte buffer: the bytes before the
first NUL. -/
def buf_str (buf : List Nat) : List Nat :=
  buf.takeWhile (fun b => b != 0)

/-- Model of `redraw` (lines 314-364): clear the screen, render the response
log from index `latest - 1` down to `0` starting at row `rows - 1` with the
skip countdown initialized to `scroll`, then print the input line, truncated
to `cols` bytes, at the last row `rows`.  The result is the ordered list of
(row, bytes) emissions. -/
def redraw (responses : List curl_response) (latest : Nat) (scroll : Int)
    (rows cols : Nat) (buf : List Nat) : List (Int × List Nat) :=
  (render_log cols ((responses.take latest).reverse) ((rows : Int) - 1) scroll).1
    ++ [((rows : Int), (buf_str buf).take cols)]

/-! ## A flattened view of the renderer, used to reason about scrolling -/

/-- One renderable entry: (buffer, stored size, line start index). -/
abbrev log_entry := List Nat × Nat × Nat

/-- The bytes the renderer emits for one entry. -/
def entry_seg (cols : Nat) (e : log_entry) : List Nat :=
  render_line e.1 e.2.1 e.2.2 cols

/-- The entries contributed by one response slot: none for a failed slot,
otherwise one per line start, newest (bottom-most) first. -/
def resp_entries (r : curl_response) : List log_entry :=
  match r.response with
  | none => []
  | some buf => (line_starts buf r.size).map (fun s => (buf, r.size, s))

/-- All entries of a response log, newest response first. -/
def log_entries : List curl_response → List log_entry
  | [] => []
  | r :: rest => resp_entries r ++ log_entries rest

/-- The byte segments of all stored logical lines of a log, newest first. -/
def all_segs (resps : List curl_response) (cols : Nat) : List (List Nat) :=
  (log_entries resps).map (entry_seg cols)

/-- The renderer's traversal over a flattened entry list: identical control
flow to `render_inner`/`render_log` (stop at `y ≤ 0`, post-decrement the skip
countdown, emit at row `y` otherwise). -/
def render_flat (seg : log_entry → List Nat) :
    List log_entry → Int → Int → List (Int × List Nat) × Int × Int
  | [], y, n => ([], y, n)
  | e :: rest, y, n =>
    if y ≤ 0 then ([], y, n)
    else if 0 < n then render_flat seg rest y (n - 1)
    else
      let r := render_flat seg rest (y - 1) (n - 1)
      ((y, seg e) :: r.1, r.2)

theorem render_flat_halt (seg : log_entry → List Nat) (l : List log_entry)
    (y n : Int) (hy : y ≤ 0) : render_flat seg l y n = ([], y, n) := by
  cases l with
  | nil => rfl
  | cons e rest => simp [render_flat, hy]

theorem render_flat_append (seg : log_entry → List Nat) (l1 l2 : List log_entry)
    (y n : Int) :
    render_flat seg (l1 ++ l2) y n =
      (let a := render_flat seg l1 y n
       let b := render_flat seg l2 a.2.1 a.2.2
       (a.1 ++ b.1, b.2)) := by
  induction l1 generalizing y n with
  | nil => simp [render_flat]
  | cons e rest ih =>
    by_cases hy : y ≤ 0
    · simp [render_flat, hy, render_flat_halt seg l2 y n hy]
    · by_cases hn : (0 : Int) < n
      · simp [render_flat, hy, hn, ih]
      · simp [render_flat, hy, hn, ih]

theorem render_inner_eq_flat (buf : List Nat) (sz cols : Nat) (idx : Nat)
    (y n : Int) :
    render_inner buf sz cols idx y n =
      render_flat (entry_seg cols)
        ((line_starts buf idx).map (fun s => (buf, sz, s))) y n := by
  induction idx generalizing y n with
  | zero => rfl
  | succ idx ih =>
    simp only [render_inner, line_starts]
    by_cases hs : idx = 0 ∨ buf.getD (idx - 1) 0 = 10
    · rw [if_pos hs, if_pos hs, List.map_cons]
      simp only [render_flat]
      by_cases hy : y ≤ 0
      · rw [if_pos hy, if_pos hy]
      · rw [if_neg hy, if_neg hy]
        by_cases hn : (0 : Int) < n
        · rw [if_pos hn, if_pos hn, ih]
        · rw [if_neg hn, if_neg hn, ih]
          rfl
    · rw [if_neg hs, if_neg hs, ih]

theorem render_log_eq_flat (cols : Nat) (resps : List curl_response) (y n : Int) :
    render_log cols resps y n =
      render_flat (entry_seg cols) (log_entries resps) y n := by
  induction resps generalizing y n with
  | nil => rfl
  | cons r rest ih =>
    cases hr : r.response with
    | none => simp [render_log, hr, log_entries, resp_entries, ih]
    | some buf =>
      simp only [render_log, hr, log_entries]
      rw [render_flat_append]
      simp only [resp_entries, hr]
      rw [render_inner_eq_flat, ih]

/-- The emitted line contents of `render_flat` are exactly: drop the first
`n.toNat` entries (the skip countdown), then take the first `y.toNat` of the
rest (the available screen rows above the input line). -/
theorem render_flat_map_snd (seg : log_entry → List Nat) (l : List log_entry)
    (y n : Int) :
    (render_flat seg l y n).1.map Prod.snd =
      ((l.map seg).drop n.toNat).take y.toNat := by
  induction l generalizing y n with
  | nil => simp [render_flat]
  | cons e rest ih =>
    simp only [render_flat, List.map_cons]
    by_cases hy : y ≤ 0
    · rw [if_pos hy]
      have h0 : y.toNat = 0 := by omega
      simp [h0]
    · rw [if_neg hy]
      by_cases hn : (0 : Int) < n
      · rw [if_pos hn, ih]
        have h1 : n.toNat = (n - 1).toNat + 1 := by omega
        rw [h1, List.drop_succ_cons]
      · rw [if_neg hn]
        have h0 : n.toNat = 0 := by omega
        have h0' : (n - 1).toNat = 0 := by omega
        have hy1 : y.toNat = (y - 1).toNat + 1 := by omega
        simp only [List.map_cons, Prod.snd]
        rw [ih, h0, h0', hy1, List.drop_zero, List.drop_zero, List.take_succ_cons]

/-! ## Lemmas about the putchar loop -/

theorem put_loop_length_le (buf : List Nat) (stop : Nat) :
    ∀ (fuel pos : Nat), (put_loop buf stop pos fuel).length ≤ fuel := by
  intro fuel
  induction fuel with
  | zero => intro pos; simp [put_loop]
  | succ fuel ih =>
    intro pos
    simp only [put_loop]
    by_cases h : pos = stop + 1
    · rw [if_pos h]; simp
    · rw [if_neg h]
      simp only [List.length_cons]
      exact Nat.succ_le_succ (ih (pos + 1))

theorem put_loop_length_eq (buf : List Nat) (stop : Nat) :
    ∀ (fuel pos : Nat), pos ≤ stop + 1 →
      (put_loop buf stop pos fuel).length = min (stop + 1 - pos) fuel := by
  intro fuel
  induction fuel with
  | zero => intro pos h; simp [put_loop]
  | succ fuel ih =>
    intro pos h
    simp only [put_loop]
    by_cases hp : pos = stop + 1
    · rw [if_pos hp]; simp; omega
    · rw [if_neg hp]
      have h2 : pos + 1 ≤ stop + 1 := by omega
      simp only [List.length_cons, ih (pos + 1) h2]
      omega

theorem put_loop_getD (buf : List Nat) (stop : Nat) :
    ∀ (fuel pos i : Nat), i < (put_loop buf stop pos fuel).length →
      (put_loop buf stop pos fuel).getD i 0 = tab_to_space (buf.getD (pos + i) 0) := by
  intro fuel
  induction fuel with
  | zero => intro pos i h; simp [put_loop] at h
  | succ fuel ih =>
    intro pos i h
    simp only [put_loop] at h ⊢
    by_cases hp : pos = stop + 1
    · rw [if_pos hp] at h; simp at h
    · rw [if_neg hp] at h ⊢
      cases i with
      | zero => simp
      | succ i =>
        simp only [List.getD_cons_succ]
        simp only [List.length_cons] at h
        have h' : i < (put_loop buf stop (pos + 1) fuel).length := by omega
        rw [ih (pos + 1) i h']
        have harith : pos + 1 + i = pos + (i + 1) := by omega
        rw [harith]

theorem find_nl_ge : ∀ (l : List Nat) (j r : Nat), find_nl l j = some r → j ≤ r := by
  intro l
  induction l with
  | nil => intro j r h; simp [find_nl] at h
  | cons b rest ih =>
    intro j r h
    simp only [find_nl] at h
    by_cases h0 : b = 0
    · rw [if_pos h0] at h; exact absurd h (by simp)
    · rw [if_neg h0] at h
      by_cases h10 : b = 10
      · rw [if_pos h10] at h
        injection h with h
        omega
      · rw [if_neg h10] at h
        have := ih _ _ h
        omega

theorem line_stop_ge (buf : List Nat) (sz start : Nat) (h : start < sz) :
    start ≤ line_stop buf sz start := by
  unfold line_stop strchr_nl
  cases hf : find_nl (buf.drop start) start with
  | none => simpa using Nat.le_of_lt h
  | some j => simpa using find_nl_ge _ _ _ hf

/-! ## Claim theorems about the renderer -/

/-- Claim C6: every byte the renderer emits for a logical line is the source
byte at the corresponding payload position, except that a tab byte (9) is
emitted as exactly one space byte (32) in its place (lines 352-355 of
`redraw`). -/
theorem tab_rendered_as_single_space (buf : List Nat) (sz start cols i : Nat)
    (h : i < (render_line buf sz start cols).length) :
    (render_line buf sz start cols).getD i 0 =
      if buf.getD (start + i) 0 = 9 then 32 else buf.getD (start + i) 0 := by
  unfold render_line at h ⊢
  rw [put_loop_getD buf (line_stop buf sz start) cols start i h]
  rfl

/-- Witness for C6: in the payload bytes [97, 9, 98, 0] (with stored size 3),
the tab at index 1 is rendered as exactly one space at rendered index 1. -/
theorem tab_rendered_as_single_space_w :
    (render_line [97, 9, 98, 0] 3 0 80).getD 1 0 = 32 := by
  have h := tab_rendered_as_single_space [97, 9, 98, 0] 3 0 80 1 (by decide)
  simpa using h

/-- Claim C7: a response slot whose payload pointer is NULL (failed transfer,
lines 327-330 of `redraw`) contributes nothing to the rendering: emitted
lines, final row cursor and skip countdown all equal those of the log with
all failed slots removed, so a failed fetch never appears in the output. -/
theorem failed_transfer_never_rendered (cols : Nat) (resps : List curl_response) (y n : Int) :
    render_log cols resps y n =
      render_log cols (resps.filter (fun r => r.response.isSome)) y n := by
  induction resps generalizing y n with
  | nil => rfl
  | cons r rest ih =>
    cases hr : r.response with
    | none => simp [render_log, hr, List.filter_cons, ih]
    | some buf => simp [render_log, hr, List.filter_cons, ih]

/-- Claim C4: for a viewport of `rows` rows and `cols` columns, every line the
renderer emits (including the input line on the last row) is truncated to at
most `cols` bytes; a logical line whose byte run (up to and including its
terminator position) is at least `cols` long is emitted with exactly `cols`
bytes; and the total number of emitted screen rows, counting the input line,
is at most `rows`. -/
theorem redraw_truncates_cols_and_bounds_rows :
    (∀ (responses : List curl_response) (latest : Nat) (scroll : Int)
       (rows cols : Nat) (buf : List Nat), 1 ≤ rows →
       (redraw responses latest scroll rows cols buf).length ≤ rows) ∧
    (∀ (responses : List curl_response) (latest : Nat) (scroll : Int)
       (rows cols : Nat) (buf : List Nat) (e : Int × List Nat),
       e ∈ redraw responses latest scroll rows cols buf → e.2.length ≤ cols) ∧
    (∀ (buf : List Nat) (sz start cols : Nat), start < sz →
       cols ≤ line_stop buf sz start + 1 - start →
       (render_line buf sz start cols).length = cols) := by
  refine ⟨?_, ?_, ?_⟩
  · intro responses latest scroll rows cols buf hrows
    unfold redraw
    rw [List.length_append]
    have h1 : (render_log cols ((responses.take latest).reverse)
        ((rows : Int) - 1) scroll).1.length ≤ ((rows : Int) - 1).toNat := by
      rw [← List.length_map _ Prod.snd, render_log_eq_flat, render_flat_map_snd]
      exact List.length_take_le _ _
    simp only [List.length_singleton]
    omega
  · intro responses latest scroll rows cols buf e he
    unfold redraw at he
    rw [List.mem_append] at he
    rcases he with he | he
    · have h2 : e.2 ∈ (render_log cols ((responses.take latest).reverse)
          ((rows : Int) - 1) scroll).1.map Prod.snd := List.mem_map_of_mem _ he
      rw [render_log_eq_flat, render_flat_map_snd] at h2
      have h3 := List.drop_subset _ _ (List.take_subset _ _ h2)
      rw [List.mem_map] at h3
      obtain ⟨en, _, heq⟩ := h3
      rw [← heq]
      exact put_loop_length_le _ _ _ _
    · simp only [List.mem_singleton] at he
      rw [he]
      exact List.length_take_le _ _
  · intro buf sz start cols hstart hcols
    unfold render_line
    rw [put_loop_length_eq buf (line_stop buf sz start) cols start
      (by have := line_stop_ge buf sz start hstart; omega)]
    omega

/-- Witness for C4: a 3-row, 2-column viewport over one published response
with payload bytes [104, 105, 106] and input line bytes [120]: at most 3 rows
are emitted, the input-line emission is at most 2 bytes, and the line at
start 0 (whose byte run is 4 > 2) renders to exactly 2 bytes. -/
theorem redraw_truncates_cols_and_bounds_rows_w :
    (redraw [⟨some [104, 105, 106, 0], 3⟩] 1 0 3 2 [120, 0]).length ≤ 3 ∧
    (((3 : Int), [120]) : Int × List Nat).2.length ≤ 2 ∧
    (render_line [104, 105, 106, 0] 3 0 2).length = 2 := by
  refine ⟨?_, ?_, ?_⟩
  · exact redraw_truncates_cols_and_bounds_rows.1 [⟨some [104, 105, 106, 0], 3⟩] 1 0 3 2
      [120, 0] (by decide)
  · exact redraw_truncates_cols_and_bounds_rows.2.1 [⟨some [104, 105, 106, 0], 3⟩] 1 0 3 2
      [120, 0] ((3 : Int), [120]) (by decide)
  · exact redraw_truncates_cols_and_bounds_rows.2.2 [104, 105, 106, 0] 3 0 2 (by decide)
      (by decide)

/-- Claim C5: with the skip countdown initialized to `scroll_offset = k`
(`k` below the total number of stored logical lines), the renderer emits
exactly the stored lines with the `k` bottom-most ones dropped (then capped
by the `rows - 1` available log rows), while `scroll_offset = 0` emits the
same sequence with nothing dropped: scrolling by `k` skips exactly `k`
additional bottom-most stored lines, counted across all non-failed
responses, before rendering begins. -/
theorem scroll_offset_drops_bottom_lines (resps : List curl_response)
    (cols rows : Nat) (k : Nat) (hk : k < (all_segs resps cols).length) :
    (render_log cols resps ((rows : Int) - 1) ((k : Nat) : Int)).1.map Prod.snd =
        ((all_segs resps cols).drop k).take ((rows : Int) - 1).toNat ∧
    (render_log cols resps ((rows : Int) - 1) 0).1.map Prod.snd =
        (all_segs resps cols).take ((rows : Int) - 1).toNat := by
  constructor
  · rw [render_log_eq_flat, render_flat_map_snd]
    simp [all_segs]
  · rw [render_log_eq_flat, render_flat_map_snd]
    simp [all_segs]

/-- Witness for C5: one response with payload "a\nb" has two stored lines
([98, 0] then [97, 10], bottom-up); with a 3-row viewport, scroll 1 drops
exactly the bottom-most line versus scroll 0. -/
theorem scroll_offset_drops_bottom_lines_w :
    (render_log 80 [⟨some [97, 10, 98, 0], 3⟩] ((3 : Int) - 1) ((1 : Nat) : Int)).1.map
        Prod.snd =
      ((all_segs [⟨some [97, 10, 98, 0], 3⟩] 80).drop 1).take ((3 : Int) - 1).toNat ∧
    (render_log 80 [⟨some [97, 10, 98, 0], 3⟩] ((3 : Int) - 1) 0).1.map Prod.snd =
      (all_segs [⟨some [97, 10, 98, 0], 3⟩] 80).take ((3 : Int) - 1).toNat :=
  scroll_offset_drops_bottom_lines [⟨some [97, 10, 98, 0], 3⟩] 80 3 1 (by decide)

/-! ## Input line handling (read_char, lines 283-312) -/

/-- C `strlen` on the 128-byte input buffer: the number of bytes before the
first NUL. -/
def strlen (buf : List Nat) : Nat := (buf_str buf).length

theorem buf_str_set_last (buf : List Nat) (h : 0 < strlen buf) :
    buf_str (buf.set (strlen buf - 1) 0) = (buf_str buf).dropLast := by
  induction buf with
  | nil => simp [strlen, buf_str] at h
  | cons b rest ih =>
    by_cases hb : b = 0
    · subst hb; simp [strlen, buf_str, List.takeWhile_cons] at h
    · have hbne : (b != 0) = true := by simpa using hb
      have hcons : ∀ (l : List Nat), buf_str (b :: l) = b :: buf_str l := by
        intro l
        simp [buf_str, List.takeWhile_cons, hbne]
      have hs : strlen (b :: rest) = strlen rest + 1 := by
        simp [strlen, hcons rest]
      rw [hs]
      simp only [Nat.add_sub_cancel]
      by_cases h0 : strlen rest = 0
      · rw [h0]
        have hr : buf_str rest = [] := List.eq_nil_of_length_eq_zero h0
        have hzero : buf_str ((b :: rest).set 0 0) = [] := by
          simp [List.set_cons_zero, buf_str, List.takeWhile_cons]
        rw [hzero, hcons rest, hr, List.dropLast_single]
      · have hpos : 0 < strlen rest := Nat.pos_of_ne_zero h0
        obtain ⟨k, hk⟩ := Nat.exists_eq_succ_of_ne_zero h0
        rw [Nat.succ_eq_add_one] at hk
        have hrec := ih hpos
        rw [hk] at hrec ⊢
        simp only [Nat.add_sub_cancel] at hrec
        rw [List.set_cons_succ, hcons (rest.set k 0), hcons rest, hrec]
        cases hbr : buf_str rest with
        | nil => simp [strlen, hbr] at hpos
        | cons c cs => rw [List.dropLast_cons₂]

/-- C `isprint` for a byte value: printable ASCII, 0x20 to 0x7E. -/
def is_print (c : Nat) : Bool := decide (32 ≤ c) && decide (c ≤ 126)

/-- The result of one keystroke handled by `read_char`: the updated scroll
counter, the updated 128-byte input buffer, and the URL submitted over the
command channel, if any. -/
structure ui_result where
  scroll : Int
  buf : List Nat
  sent : Option (List Nat)
deriving DecidableEq

/-- Model of `read_char` (lines 283-312): carriage return (13) submits the
current input string and zeroes the buffer; backspace (127) or `\b` (8)
NUL-overwrites the last byte of the string when it is non-empty; the two
quote bytes (34, 39) decrement and increment the scroll counter; any other
byte is stored at the end of the string when the buffer has room
(`len + 1 < 128`) and the byte is printable. -/
def read_char (scroll : Int) (buf : List Nat) (c : Nat) : ui_result :=
  let len := strlen buf
  if c = 13 then ⟨scroll, List.replicate 128 0, some (buf_str buf)⟩
  else if c = 127 ∨ c = 8 then
    ⟨scroll, if 0 < len then buf.set (len - 1) 0 else buf, none⟩
  else if c = 34 then ⟨scroll - 1, buf, none⟩
  else if c = 39 then ⟨scroll + 1, buf, none⟩
  else ⟨scroll, if len + 1 < 128 ∧ is_print c = true then buf.set len c else buf, none⟩

/-- Claim C8: a backspace or delete keystroke (byte 127 or 8) removes exactly
the last character of the input line when it is non-empty, and leaves the
buffer completely unchanged when the input line is empty (lines 292-298). -/
theorem backspace_removes_last_character (scroll : Int) (buf : List Nat) (c : Nat)
    (hc : c = 127 ∨ c = 8) :
    (buf_str buf = [] → (read_char scroll buf c).buf = buf) ∧
    (buf_str buf ≠ [] → buf_str ((read_char scroll buf c).buf) = (buf_str buf).dropLast) := by
  have hc13 : ¬c = 13 := by rcases hc with h | h <;> omega
  constructor
  · intro hemp
    have hlen : ¬0 < strlen buf := by simp [strlen, hemp]
    simp only [read_char]
    rw [if_neg hc13, if_pos hc]
    simp [hlen]
  · intro hne
    have hlen : 0 < strlen buf := by
      have : buf_str buf ≠ [] := hne
      simp only [strlen]
      exact List.length_pos.mpr this
    simp only [read_char]
    rw [if_neg hc13, if_pos hc]
    simp only [if_pos hlen]
    exact buf_str_set_last buf hlen

/-- Witness for C8: backspace on input "hi" leaves "h"; backspace on an empty
input buffer leaves it untouched. -/
theorem backspace_removes_last_character_w :
    buf_str ((read_char 0 [104, 105, 0, 0] 127).buf) = [104] ∧
    (read_char 0 [0, 0] 127).buf = [0, 0] := by
  constructor
  · have h := (backspace_removes_last_character 0 [104, 105, 0, 0] 127 (Or.inl rfl)).2
      (by decide)
    simpa using h
  · exact (backspace_removes_last_character 0 [0, 0] 127 (Or.inl rfl)).1 (by decide)

/-! ## Claim theorem about the transfer sink (write_cb) -/

/-- Claim C10: each invocation of the write callback on a well-formed slot
with a chunk of `sz * nmemb` bytes appends exactly those bytes after the
previously accumulated payload (leaving it unchanged), increases the stored
size by exactly the chunk length, and leaves the buffer NUL-terminated at
index `size`; well-formedness is preserved, so the accumulated payload is
always the NUL-terminated in-order concatenation of all chunks received. -/
theorem write_cb_appends_and_terminates (m : curl_response) (sz nmemb : Nat)
    (data : List Nat) (hinv : resp_inv m = true) (hlen : data.length = sz * nmemb) :
    (write_cb sz nmemb data m).size = m.size + sz * nmemb ∧
    payload (write_cb sz nmemb data m) = payload m ++ data ∧
    ((write_cb sz nmemb data m).response.getD []).getD
        (write_cb sz nmemb data m).size 1 = 0 ∧
    resp_inv (write_cb sz nmemb data m) = true := by
  have hdata : data.take (sz * nmemb) = data := by
    rw [← hlen]; exact List.take_length data
  have hold : ((m.response.getD []).take m.size).length = m.size := by
    cases hm : m.response with
    | none =>
      simp only [resp_inv, hm, beq_iff_eq] at hinv
      simp [hm, hinv]
    | some l =>
      simp only [resp_inv, hm, Bool.and_eq_true, beq_iff_eq] at hinv
      simp [hm, List.length_take, hinv.1]
  have hA : ((m.response.getD []).take m.size ++ data.take (sz * nmemb)).length
      = m.size + sz * nmemb := by
    rw [List.length_append, hold, hdata, hlen]
  refine ⟨rfl, ?_, ?_, ?_⟩
  · show (((m.response.getD []).take m.size ++ data.take (sz * nmemb)) ++ [0]).take
        (m.size + sz * nmemb) = (m.response.getD []).take m.size ++ data
    rw [List.take_left' hA, hdata]
  · show (((m.response.getD []).take m.size ++ data.take (sz * nmemb)) ++ [0]).getD
        (m.size + sz * nmemb) 1 = 0
    rw [List.getD_eq_getElem?_getD, List.getElem?_append_right (by omega)]
    simp [hA]
  · show resp_inv ⟨some (((m.response.getD []).take m.size ++ data.take (sz * nmemb))
        ++ [0]), m.size + sz * nmemb⟩ = true
    simp only [resp_inv, Bool.and_eq_true, beq_iff_eq]
    constructor
    · simp only [List.length_append, hold, List.length_singleton]
      rw [hdata, hlen]
    · rw [List.getD_eq_getElem?_getD, List.getElem?_append_right (by omega)]
      simp [hA]

/-- Witness for C10: appending the 1-byte chunk [10] to a slot holding "hi"
(buffer [104, 105, 0], size 2) yields size 3, payload [104, 105, 10], a NUL
at index 3, and a well-formed slot. -/
theorem write_cb_appends_and_terminates_w :
    (write_cb 1 1 [10] ⟨some [104, 105, 0], 2⟩).size = 2 + 1 * 1 ∧
    payload (write_cb 1 1 [10] ⟨some [104, 105, 0], 2⟩) =
      payload ⟨some [104, 105, 0], 2⟩ ++ [10] ∧
    ((write_cb 1 1 [10] ⟨some [104, 105, 0], 2⟩).response.getD []).getD
        (write_cb 1 1 [10] ⟨some [104, 105, 0], 2⟩).size 1 = 0 ∧
    resp_inv (write_cb 1 1 [10] ⟨some [104, 105, 0], 2⟩) = true :=
  write_cb_appends_and_terminates ⟨some [104, 105, 0], 2⟩ 1 1 [10] (by decide) (by decide)

/-! ## Wake-channel handling in the UI loop (main, lines 405-413) -/

/-- Model of the UI loop's wake-channel handling (lines 405-413): `poll`
reports the notify pipe readable exactly when at least one wake byte is
pending, and the loop then executes a single `read` of exactly one byte;
with no pending byte nothing is read.  The value is the number of wake bytes
still pending when the loop returns to its blocking `poll`. -/
def ui_handle_wake (pending : Nat) : Nat :=
  if 0 < pending then pending - 1 else pending

/-- Iterating the UI loop's wake handling `k` times with no new signals
arriving in between. -/
def ui_drain_iters : Nat → Nat → Nat
  | 0, p => p
  | k + 1, p => ui_drain_iters k (ui_handle_wake p)

/-- Counterexample to claim C1 as stated: with two wake bytes pending, the UI
loop's wake handling reads exactly one byte, so a pending byte remains when
it returns to its blocking wait — the wake channel is not fully drained and
the next `poll` returns immediately. -/
theorem wake_handler_leaves_pending_byte :
    ui_handle_wake 2 = 1 ∧ ui_handle_wake 2 ≠ 0 := by decide

/-- Amended C1: on each wake the UI loop consumes exactly one pending wake
byte, strictly decreasing the pending count, so with `p` bytes pending and no
new signals the channel is empty after exactly `p` iterations — each surplus
byte causes one immediate re-wake and redraw, but no unbounded busy-loop. -/
theorem wake_handler_single_byte_drain (p : Nat) (hp : 0 < p) :
    ui_handle_wake p = p - 1 ∧ ui_handle_wake p < p ∧ ui_drain_iters p p = 0 := by
  have key : ∀ k q, q ≤ k → ui_drain_iters k q = 0 := by
    intro k
    induction k with
    | zero =>
      intro q hq
      have hq0 : q = 0 := by omega
      rw [hq0]; rfl
    | succ k ih =>
      intro q hq
      simp only [ui_drain_iters]
      apply ih
      unfold ui_handle_wake
      split <;> omega
  refine ⟨by simp [ui_handle_wake, hp], ?_, key p p le_rfl⟩
  unfold ui_handle_wake
  split <;> omega

/-- Witness for amended C1: with two pending bytes one read leaves one byte,
and two iterations empty the channel. -/
theorem wake_handler_single_byte_drain_w :
    ui_handle_wake 2 = 2 - 1 ∧ ui_handle_wake 2 < 2 ∧ ui_drain_iters 2 2 = 0 :=
  wake_handler_single_byte_drain 2 (by decide)

/-! ## Shutdown coordination (cleanup_state, lines 162-197) -/

/-- A command-channel event (`struct pipe_event`, lines 102-104): an owned
URL string, transferred by value through the pipe. -/
structure pipe_event where
  url : List Nat
deriving DecidableEq

/-- The drain loop of `cleanup_state` (lines 170-183): read the command pipe
until the non-blocking read reports empty (EWOULDBLOCK), freeing each event's
URL; the result lists the freed URLs in the order read. -/
def cleanup_drain : List pipe_event → List (List Nat)
  | [] => []
  | e :: rest => e.url :: cleanup_drain rest

/-- The observable actions of the shutdown coordinator. -/
inductive cleanup_act where
  | set_done
  | wakeup_worker
  | join_worker
  | free_url (u : List Nat)
  | close_cmd_read
  | close_cmd_write
  | close_wake_read
  | close_wake_write
  | free_slot (i : Nat)
deriving DecidableEq

/-- Model of `cleanup_state` (lines 162-197) given the events still queued in
the command pipe: set the shutdown flag, wake the worker's wait primitive
(`curl_multi_wakeup`), join the worker thread, free every undelivered URL by
draining the pipe, close both pipes, then free all 1024 response buffers. -/
def cleanup_state (q : List pipe_event) : List cleanup_act :=
  [cleanup_act.set_done, cleanup_act.wakeup_worker, cleanup_act.join_worker]
    ++ (cleanup_drain q).map cleanup_act.free_url
    ++ [cleanup_act.close_cmd_read, cleanup_act.close_cmd_write,
        cleanup_act.close_wake_read, cleanup_act.close_wake_write]
    ++ (List.range 1024).map cleanup_act.free_slot

/-- The worker's consumption of up to `m` queued events, front first (lines
240-252): each event read from the pipe has its URL freed by the worker once
the transfer is set up; the result is the remaining queue and the URLs the
worker freed, in order. -/
def worker_consume : Nat → List pipe_event → List pipe_event × List (List Nat)
  | 0, q => (q, [])
  | _ + 1, [] => ([], [])
  | m + 1, e :: rest =>
    let r := worker_consume m rest
    (r.1, e.url :: r.2)

theorem worker_consume_spec : ∀ (m : Nat) (S : List (List Nat)),
    worker_consume m (S.map pipe_event.mk) = ((S.drop m).map pipe_event.mk, S.take m) := by
  intro m
  induction m with
  | zero => intro S; simp [worker_consume]
  | succ m ih =>
    intro S
    cases S with
    | nil => simp [worker_consume]
    | cons u rest => simp [worker_consume, ih]

theorem cleanup_drain_map : ∀ (L : List (List Nat)),
    cleanup_drain (L.map pipe_event.mk) = L := by
  intro L
  induction L with
  | nil => rfl
  | cons u rest ih => simp [cleanup_drain, ih]

/-- Claim C9: after `m` of the `M` submitted requests were consumed by the
worker (`m < M`), the shutdown coordinator — having set the shutdown flag,
woken the worker's wait primitive and joined the worker thread, in that
order — drains the command channel until empty and frees exactly the
undelivered requests: worker-freed plus coordinator-freed URLs account for
every submitted URL exactly once, so none is leaked. -/
theorem shutdown_reclaims_all_undelivered (S : List (List Nat)) (m : Nat)
    (hm : m < S.length) :
    (worker_consume m (S.map pipe_event.mk)).2 = S.take m ∧
    cleanup_drain (worker_consume m (S.map pipe_event.mk)).1 = S.drop m ∧
    (worker_consume m (S.map pipe_event.mk)).2
        ++ cleanup_drain (worker_consume m (S.map pipe_event.mk)).1 = S ∧
    cleanup_state (worker_consume m (S.map pipe_event.mk)).1 =
      [cleanup_act.set_done, cleanup_act.wakeup_worker, cleanup_act.join_worker]
        ++ (S.drop m).map cleanup_act.free_url
        ++ [cleanup_act.close_cmd_read, cleanup_act.close_cmd_write,
            cleanup_act.close_wake_read, cleanup_act.close_wake_write]
        ++ (List.range 1024).map cleanup_act.free_slot := by
  rw [worker_consume_spec m S]
  refine ⟨rfl, ?_, ?_, ?_⟩
  · exact cleanup_drain_map (S.drop m)
  · rw [cleanup_drain_map (S.drop m)]
    exact List.take_append_drop m S
  · unfold cleanup_state
    rw [cleanup_drain_map (S.drop m)]

/-- Witness for C9: of three submitted URLs the worker consumed one; the
coordinator's drain frees exactly the two undelivered URLs. -/
theorem shutdown_reclaims_all_undelivered_w :
    (worker_consume 1 ([[97], [98], [99]].map pipe_event.mk)).2 = [[97]] ∧
    cleanup_drain (worker_consume 1 ([[97], [98], [99]].map pipe_event.mk)).1 =
      [[98], [99]] := by
  have h := shutdown_reclaims_all_undelivered [[97], [98], [99]] 1 (by decide)
  exact ⟨by rw [h.1]; decide, by rw [h.2.1]; decide⟩

/-! ## Network worker loop (network_thread, lines 199-266) -/

/-- The observable actions of the network worker loop, in program order. -/
inductive net_act where
  | write_chunk (slot : Nat) (chunk : List Nat)
  | publish (count : Nat)
  | signal
  | start_transfer (slot : Nat) (url : List Nat)
  | free_url (url : List Nat)
  | fatal
deriving DecidableEq

/-- The engine/environment behavior for one iteration of the worker loop:
whether the shutdown flag is observed at the loop top, whether
`curl_multi_perform` succeeds, whether the in-flight transfer (if any)
finishes during this perform call, the data chunks it delivers to its slot,
whether `curl_multi_poll` succeeds, and whether poll reports the command pipe
readable. -/
structure net_oracle where
  done : Bool
  code_ok : Bool
  finished : Bool
  chunks : List (List Nat)
  poll_ok : Bool
  pipe_readable : Bool
deriving DecidableEq

/-- The worker loop's state: `prev_running` (initialized to -1, line 207),
the `latest_response` cursor, whether a transfer is in flight, and the
events queued in the command pipe. -/
structure net_state where
  prev_running : Int
  latest_response : Nat
  transferring : Bool
  cmd_queue : List pipe_event
deriving DecidableEq

/-- The worker state at thread start (`init_state` zero-fills the global
state, so the cursor starts at 0; lines 150-152 and 207). -/
def net_init (q : List pipe_event) : net_state := ⟨-1, 0, false, q⟩

/-- `running_handles` as returned by `curl_multi_perform` (line 212): 1
exactly when a transfer is in flight and does not finish during the call. -/
def net_running (st : net_state) (o : net_oracle) : Int :=
  if st.transferring = true ∧ o.finished = false then 1 else 0

/-- The buffer writes the engine performs during `curl_multi_perform`: each
chunk goes through `write_cb` into the in-flight transfer's slot, which is
the cursor value current since that transfer started (line 249). -/
def net_wacts (st : net_state) (o : net_oracle) : List net_act :=
  if st.transferring = true then
    o.chunks.map (fun c => net_act.write_chunk st.latest_response c)
  else []

/-- Whether a transfer is still in flight after this perform call. -/
def net_t1 (st : net_state) (o : net_oracle) : Bool := st.transferring && !o.finished

/-- Whether the pipe wait descriptor reports readable (line 239): poll flags
it and there is queued data. -/
def net_readable (st : net_state) (o : net_oracle) : Bool :=
  o.pipe_readable && !st.cmd_queue.isEmpty

/-- The request pickup (lines 239-253): when no transfer is running and the
command pipe is readable, read one event, direct the transfer's output into
`responses[latest_response]` (the cursor value at start time, line 249), and
free the event's URL.  Returns the emitted actions, the remaining queue, and
whether a transfer was started. -/
def net_start (latest : Nat) (running : Int) (readable : Bool) (q : List pipe_event) :
    List net_act × List pipe_event × Bool :=
  if running = 0 ∧ readable = true then
    match q with
    | [] => ([], [], false)
    | e :: rest =>
      ([net_act.start_transfer latest e.url, net_act.free_url e.url], rest, true)
  else ([], q, false)

/-- One iteration of the worker loop body (lines 209-256): perform (chunk
writes, `running_handles`); break on perform failure; on a completion edge
(`prev_running == 1 && running_handles == 0`, line 222) increment the cursor
— aborting (`fatal`) when the incremented value reaches 1024 (lines 223-225)
— then signal the wake channel (line 227); break on poll failure; then pick
up a queued request if idle; finally store `prev_running`.  Returns the new
state, the emitted actions in order, and whether the loop continues. -/
def net_iter (st : net_state) (o : net_oracle) : net_state × List net_act × Bool :=
  if o.code_ok = false then
    (⟨st.prev_running, st.latest_response, net_t1 st o, st.cmd_queue⟩, net_wacts st o, false)
  else if st.prev_running = 1 ∧ net_running st o = 0 then
    if st.latest_response + 1 = 1024 then
      (⟨st.prev_running, st.latest_response + 1, net_t1 st o, st.cmd_queue⟩,
        net_wacts st o ++ [net_act.publish (st.latest_response + 1), net_act.fatal], false)
    else if o.poll_ok = false then
      (⟨st.prev_running, st.latest_response + 1, net_t1 st o, st.cmd_queue⟩,
        net_wacts st o ++ [net_act.publish (st.latest_response + 1), net_act.signal], false)
    else
      (⟨net_running st o, st.latest_response + 1,
          net_t1 st o || (net_start (st.latest_response + 1) (net_running st o)
            (net_readable st o) st.cmd_queue).2.2,
          (net_start (st.latest_response + 1) (net_running st o)
            (net_readable st o) st.cmd_queue).2.1⟩,
        net_wacts st o ++ [net_act.publish (st.latest_response + 1), net_act.signal]
          ++ (net_start (st.latest_response + 1) (net_running st o)
            (net_readable st o) st.cmd_queue).1,
        true)
  else if o.poll_ok = false then
    (⟨st.prev_running, st.latest_response, net_t1 st o, st.cmd_queue⟩, net_wacts st o, false)
  else
    (⟨net_running st o, st.latest_response,
        net_t1 st o || (net_start st.latest_response (net_running st o)
          (net_readable st o) st.cmd_queue).2.2,
        (net_start st.latest_response (net_running st o)
          (net_readable st o) st.cmd_queue).2.1⟩,
      net_wacts st o ++ (net_start st.latest_response (net_running st o)
        (net_readable st o) st.cmd_queue).1,
      true)

/-- The worker loop run against a list of per-iteration oracles, stopping
when the shutdown flag is observed at the loop top (line 209) or when an
iteration breaks. -/
def net_run : net_state → List net_oracle → net_state × List net_act
  | st, [] => (st, [])
  | st, o :: os =>
    if o.done = true then (st, [])
    else
      let r := net_iter st o
      if r.2.2 = true then
        let r2 := net_run r.1 os
        (r2.1, r.2.1 ++ r2.2)
      else (r.1, r.2.1)

/-- Whether an action is a publish (cursor increment). -/
def is_publish : net_act → Bool
  | net_act.publish _ => true
  | _ => false

/-- The number of publish actions in a trace. -/
def count_publish (l : List net_act) : Nat := (l.filter is_publish).length

theorem count_publish_append (a b : List net_act) :
    count_publish (a ++ b) = count_publish a + count_publish b := by
  simp [count_publish, List.filter_append]

theorem count_publish_write_chunks (slot : Nat) (cs : List (List Nat)) :
    count_publish (cs.map (fun c => net_act.write_chunk slot c)) = 0 := by
  induction cs with
  | nil => rfl
  | cons c rest ih => rw [List.map_cons]; exact ih

theorem count_publish_wacts (st : net_state) (o : net_oracle) :
    count_publish (net_wacts st o) = 0 := by
  unfold net_wacts
  split
  · exact count_publish_write_chunks _ _
  · rfl

theorem count_publish_start (latest : Nat) (running : Int) (readable : Bool)
    (q : List pipe_event) :
    count_publish (net_start latest running readable q).1 = 0 := by
  unfold net_start
  split
  · cases q <;> rfl
  · rfl

theorem fatal_not_in_wacts (st : net_state) (o : net_oracle) :
    net_act.fatal ∉ net_wacts st o := by
  unfold net_wacts
  split
  · simp [List.mem_map]
  · simp

theorem fatal_not_in_start (latest : Nat) (running : Int) (readable : Bool)
    (q : List pipe_event) :
    net_act.fatal ∉ (net_start latest running readable q).1 := by
  unfold net_start
  split
  · cases q <;> simp
  · simp

theorem count_publish_nil : count_publish [] = 0 := rfl

theorem count_publish_pub_cons (n : Nat) (rest : List net_act) :
    count_publish (net_act.publish n :: rest) = count_publish rest + 1 := rfl

theorem count_publish_signal_cons (rest : List net_act) :
    count_publish (net_act.signal :: rest) = count_publish rest := rfl

theorem count_publish_fatal_cons (rest : List net_act) :
    count_publish (net_act.fatal :: rest) = count_publish rest := rfl

theorem net_iter_latest (st : net_state) (o : net_oracle) :
    (net_iter st o).1.latest_response =
      st.latest_response + count_publish (net_iter st o).2.1 := by
  unfold net_iter
  split_ifs <;>
    simp [count_publish_append, count_publish_wacts, count_publish_start,
      count_publish_pub_cons, count_publish_signal_cons, count_publish_fatal_cons,
      count_publish_nil]

theorem net_iter_pub_le (st : net_state) (o : net_oracle) :
    count_publish (net_iter st o).2.1 ≤ 1 := by
  unfold net_iter
  split_ifs <;>
    simp [count_publish_append, count_publish_wacts, count_publish_start,
      count_publish_pub_cons, count_publish_signal_cons, count_publish_fatal_cons,
      count_publish_nil]

theorem net_iter_fatal (st : net_state) (o : net_oracle)
    (h : net_act.fatal ∈ (net_iter st o).2.1) :
    (net_iter st o).1.latest_response = 1024 ∧ (net_iter st o).2.2 = false := by
  unfold net_iter at h ⊢
  split_ifs at h ⊢ with h1 h2 h3 h4 h5
  · exact absurd h (fatal_not_in_wacts st o)
  · exact ⟨h3, rfl⟩
  · rcases List.mem_append.mp h with h | h
    · exact absurd h (fatal_not_in_wacts st o)
    · simp at h
  · rcases List.mem_append.mp h with h | h
    · rcases List.mem_append.mp h with h | h
      · exact absurd h (fatal_not_in_wacts st o)
      · simp at h
    · exact absurd h (fatal_not_in_start _ _ _ _)
  · exact absurd h (fatal_not_in_wacts st o)
  · rcases List.mem_append.mp h with h | h
    · exact absurd h (fatal_not_in_wacts st o)
    · exact absurd h (fatal_not_in_start _ _ _ _)

theorem net_iter_no_fatal_bound (st : net_state) (o : net_oracle)
    (hst : st.latest_response ≤ 1023)
    (h : net_act.fatal ∉ (net_iter st o).2.1) :
    (net_iter st o).1.latest_response ≤ 1023 := by
  unfold net_iter at h ⊢
  split_ifs at h ⊢ with h1 h2 h3 h4 h5
  · exact hst
  · exact absurd (List.mem_append.mpr (Or.inr (by simp))) h
  · show st.latest_response + 1 ≤ 1023
    omega
  · show st.latest_response + 1 ≤ 1023
    omega
  · exact hst
  · exact hst

theorem net_run_latest : ∀ (os : List net_oracle) (st : net_state),
    (net_run st os).1.latest_response =
      st.latest_response + count_publish (net_run st os).2 := by
  intro os
  induction os with
  | nil => intro st; simp [net_run, count_publish]
  | cons o os ih =>
    intro st
    simp only [net_run]
    by_cases hd : o.done = true
    · rw [if_pos hd]; simp [count_publish]
    · rw [if_neg hd]
      by_cases hc : (net_iter st o).2.2 = true
      · rw [if_pos hc]
        simp only [count_publish_append]
        have h1 := ih (net_iter st o).1
        have h2 := net_iter_latest st o
        omega
      · rw [if_neg hc]
        exact net_iter_latest st o

theorem net_run_bound : ∀ (os : List net_oracle) (st : net_state),
    st.latest_response ≤ 1023 →
      ((net_act.fatal ∉ (net_run st os).2 → (net_run st os).1.latest_response ≤ 1023) ∧
       (net_run st os).1.latest_response ≤ 1024) := by
  intro os
  induction os with
  | nil =>
    intro st hst
    refine ⟨fun _ => hst, ?_⟩
    show st.latest_response ≤ 1024
    omega
  | cons o os ih =>
    intro st hst
    simp only [net_run]
    by_cases hd : o.done = true
    · rw [if_pos hd]
      refine ⟨fun _ => hst, ?_⟩
      show st.latest_response ≤ 1024
      omega
    · rw [if_neg hd]
      by_cases hc : (net_iter st o).2.2 = true
      · rw [if_pos hc]
        have hnf : net_act.fatal ∉ (net_iter st o).2.1 := by
          intro hmem
          have hhalt := (net_iter_fatal st o hmem).2
          rw [hhalt] at hc
          exact Bool.false_ne_true hc
        have hle : (net_iter st o).1.latest_response ≤ 1023 :=
          net_iter_no_fatal_bound st o hst hnf
        have hrec := ih (net_iter st o).1 hle
        constructor
        · intro hall
          apply hrec.1
          intro hmem2
          exact hall (List.mem_append.mpr (Or.inr hmem2))
        · exact hrec.2
      · rw [if_neg hc]
        constructor
        · intro hnf
          exact net_iter_no_fatal_bound st o hst hnf
        · show (net_iter st o).1.latest_response ≤ 1024
          have h1 := net_iter_latest st o
          have h2 := net_iter_pub_le st o
          omega

theorem start_transfer_not_in_wacts (st : net_state) (o : net_oracle)
    (slot : Nat) (url : List Nat) :
    net_act.start_transfer slot url ∉ net_wacts st o := by
  unfold net_wacts
  split
  · simp [List.mem_map]
  · simp

theorem start_transfer_in_start (latest : Nat) (running : Int) (readable : Bool)
    (q : List pipe_event) (slot : Nat) (url : List Nat)
    (h : net_act.start_transfer slot url ∈ (net_start latest running readable q).1) :
    slot = latest := by
  unfold net_start at h
  split at h
  · cases q with
    | nil => simp at h
    | cons e rest =>
      simp at h
      exact h.1
  · simp at h

theorem write_chunk_in_wacts (st : net_state) (o : net_oracle)
    (slot : Nat) (c : List Nat) (h : net_act.write_chunk slot c ∈ net_wacts st o) :
    slot = st.latest_response := by
  unfold net_wacts at h
  split at h
  · rw [List.mem_map] at h
    obtain ⟨x, -, hx⟩ := h
    simp at hx
    exact hx.1.symm
  · simp at h

theorem write_chunk_not_in_start (latest : Nat) (running : Int) (readable : Bool)
    (q : List pipe_event) (slot : Nat) (c : List Nat) :
    net_act.write_chunk slot c ∉ (net_start latest running readable q).1 := by
  unfold net_start
  split
  · cases q <;> simp
  · simp

/-- Claim C2: the worker directs every started transfer's output into the
response slot indexed by the cursor value current when the transfer starts —
not yet incremented for that transfer (lines 248-249) — and, on a completion
edge, the iteration's trace is exactly: the transfer's slot writes first,
then the publish incrementing the cursor by exactly 1 (line 223), then the
wake-channel signal (line 227), in that order, followed only by the possible
pickup of the next queued request (which targets the post-increment
cursor). -/
theorem transfer_slot_and_publish_signal_order (st : net_state) (o : net_oracle) :
    (o.code_ok = true → o.poll_ok = true → st.prev_running = 1 →
      st.transferring = true → o.finished = true → st.latest_response + 1 ≠ 1024 →
      (net_iter st o).2.1 =
        o.chunks.map (fun c => net_act.write_chunk st.latest_response c)
          ++ [net_act.publish (st.latest_response + 1), net_act.signal]
          ++ (net_start (st.latest_response + 1) 0 (net_readable st o) st.cmd_queue).1) ∧
    (∀ (slot : Nat) (url : List Nat),
       net_act.start_transfer slot url ∈ (net_iter st o).2.1 →
       slot = (net_iter st o).1.latest_response) ∧
    (∀ (slot : Nat) (chunk : List Nat),
       net_act.write_chunk slot chunk ∈ (net_iter st o).2.1 →
       slot = st.latest_response) := by
  refine ⟨?_, ?_, ?_⟩
  · intro hok hpoll hprev htr hfin hcap
    have hr0 : net_running st o = 0 := by
      unfold net_running
      rw [if_neg]
      rintro ⟨-, h2⟩
      rw [hfin] at h2
      simp at h2
    have hc1 : ¬o.code_ok = false := by rw [hok]; simp
    have hc4 : ¬o.poll_ok = false := by rw [hpoll]; simp
    unfold net_iter
    rw [if_neg hc1, if_pos ⟨hprev, hr0⟩, if_neg hcap, if_neg hc4, hr0]
    unfold net_wacts
    rw [if_pos htr]
  · intro slot url hmem
    unfold net_iter at hmem ⊢
    split_ifs at hmem ⊢ with h1 h2 h3 h4 h5
    · exact absurd hmem (start_transfer_not_in_wacts st o slot url)
    · rcases List.mem_append.mp hmem with h | h
      · exact absurd h (start_transfer_not_in_wacts st o slot url)
      · simp at h
    · rcases List.mem_append.mp hmem with h | h
      · exact absurd h (start_transfer_not_in_wacts st o slot url)
      · simp at h
    · rcases List.mem_append.mp hmem with h | h
      · rcases List.mem_append.mp h with h' | h'
        · exact absurd h' (start_transfer_not_in_wacts st o slot url)
        · simp at h'
      · exact start_transfer_in_start _ _ _ _ _ _ h
    · exact absurd hmem (start_transfer_not_in_wacts st o slot url)
    · rcases List.mem_append.mp hmem with h | h
      · exact absurd h (start_transfer_not_in_wacts st o slot url)
      · exact start_transfer_in_start _ _ _ _ _ _ h
  · intro slot chunk hmem
    unfold net_iter at hmem
    split_ifs at hmem with h1 h2 h3 h4 h5
    · exact write_chunk_in_wacts st o slot chunk hmem
    · rcases List.mem_append.mp hmem with h | h
      · exact write_chunk_in_wacts st o slot chunk h
      · simp at h
    · rcases List.mem_append.mp hmem with h | h
      · exact write_chunk_in_wacts st o slot chunk h
      · simp at h
    · rcases List.mem_append.mp hmem with h | h
      · rcases List.mem_append.mp h with h' | h'
        · exact write_chunk_in_wacts st o slot chunk h'
        · simp at h'
      · exact absurd h (write_chunk_not_in_start _ _ _ _ _ _)
    · exact write_chunk_in_wacts st o slot chunk hmem
    · rcases List.mem_append.mp hmem with h | h
      · exact write_chunk_in_wacts st o slot chunk h
      · exact absurd h (write_chunk_not_in_start _ _ _ _ _ _)

/-- Witness for C2: with a transfer in flight on slot 5 that delivers chunk
[97] and finishes, and URL [104] queued, the iteration emits exactly: the
slot-5 write, the publish of 6, the signal, then the pickup of the next
transfer targeting slot 6. -/
theorem transfer_slot_and_publish_signal_order_w :
    (net_iter ⟨1, 5, true, [⟨[104]⟩]⟩ ⟨false, true, true, [[97]], true, true⟩).2.1 =
      ([[97]] : List (List Nat)).map (fun c => net_act.write_chunk 5 c)
        ++ [net_act.publish 6, net_act.signal]
        ++ (net_start 6 0
            (net_readable ⟨1, 5, true, [⟨[104]⟩]⟩ ⟨false, true, true, [[97]], true, true⟩)
            [⟨[104]⟩]).1 ∧
    6 = (net_iter ⟨1, 5, true, [⟨[104]⟩]⟩
          ⟨false, true, true, [[97]], true, true⟩).1.latest_response := by
  have h := transfer_slot_and_publish_signal_order ⟨1, 5, true, [⟨[104]⟩]⟩
    ⟨false, true, true, [[97]], true, true⟩
  refine ⟨h.1 rfl rfl rfl rfl rfl (by decide), ?_⟩
  exact h.2.1 6 [104] (by decide)

/-- Claim C3: the published-count cursor starts at 0 (`init_state` zero-fills
the state), changes only by publish steps of exactly +1 per completed
transfer (after any run its value equals the number of publish actions in
the trace), never exceeds the capacity 1024, stays strictly below 1024 in
every run without an abort, and the increment that reaches 1024 is a fatal,
process-aborting condition (lines 223-225): the iteration emits `fatal` and
halts rather than handling it. -/
theorem published_count_starts_zero_monotone_capped :
    (∀ q : List pipe_event, (net_init q).latest_response = 0) ∧
    (∀ (st : net_state) (o : net_oracle),
       st.latest_response ≤ (net_iter st o).1.latest_response ∧
       (net_iter st o).1.latest_response ≤ st.latest_response + 1) ∧
    (∀ (q : List pipe_event) (os : List net_oracle),
       (net_run (net_init q) os).1.latest_response =
           count_publish (net_run (net_init q) os).2 ∧
       (net_run (net_init q) os).1.latest_response ≤ 1024 ∧
       (net_act.fatal ∉ (net_run (net_init q) os).2 →
         (net_run (net_init q) os).1.latest_response < 1024)) ∧
    (∀ (st : net_state) (o : net_oracle), net_act.fatal ∈ (net_iter st o).2.1 →
       (net_iter st o).1.latest_response = 1024 ∧ (net_iter st o).2.2 = false) := by
  refine ⟨fun q => rfl, ?_, ?_, net_iter_fatal⟩
  · intro st o
    have h1 := net_iter_latest st o
    have h2 := net_iter_pub_le st o
    omega
  · intro q os
    have h0 : (net_init q).latest_response = 0 := rfl
    have h1 := net_run_latest os (net_init q)
    have h2 := net_run_bound os (net_init q) (by rw [h0]; omega)
    refine ⟨by omega, ?_, ?_⟩
    · exact h2.2
    · intro hnf
      have := h2.1 hnf
      omega

/-- Witness for C3: a one-iteration idle run from the initial state keeps the
cursor equal to the publish count of its (empty) trace and strictly below
capacity. -/
theorem published_count_starts_zero_monotone_capped_w :
    (net_init []).latest_response = 0 ∧
    (net_run (net_init []) [⟨false, true, false, [], true, false⟩]).1.latest_response =
        count_publish (net_run (net_init []) [⟨false, true, false, [], true, false⟩]).2 ∧
    (net_run (net_init []) [⟨false, true, false, [], true, false⟩]).1.latest_response
        < 1024 := by
  have h := published_count_starts_zero_monotone_capped
  refine ⟨h.1 [], (h.2.2.1 [] [⟨false, true, false, [], true, false⟩]).1, ?_⟩
  exact (h.2.2.1 [] [⟨false, true, false, [], true, false⟩]).2.2 (by decide)
